import Mathlib

/-!
Verification model of the RAG engine in src/services/ragService.ts
(repository captflag/CaptBot).

Strings are modelled as lists of characters, embedding vectors as lists of
rationals (the TypeScript floats), and the fallible embedding provider as an
Option-valued oracle passed in explicitly.  Stateful methods of the
RagService class become pure functions from the service state to the new
state, paired where relevant with the number of embedding-provider calls
they perform.
-/

namespace CaptBot

/-- Text is a list of characters (a model of a JavaScript string). -/
abbrev Str := List Char

/-- The sentence-terminal characters of the chunking regex: period,
exclamation mark, question mark. -/
def isTerminal (c : Char) : Bool := c == '.' || c == '!' || c == '?'

/-- Model of the regex whitespace class: the common whitespace characters
(space, tab, newline, carriage return). -/
def isWs (c : Char) : Bool := c == ' ' || c == '\t' || c == '\n' || c == '\r'

/-- Model of JavaScript String.prototype.trim: strip whitespace from both
ends. -/
def trim (s : Str) : Str :=
  ((s.dropWhile isWs).reverse.dropWhile isWs).reverse

/-- One attempt of the sentence regex at the start of the input, mirroring
the pattern used in indexDocument.  The first alternative matches a run of
non-terminal characters, a run of terminal punctuation, then either a greedy
whitespace run or end of input; the second alternative matches a run of
non-terminal characters extending to end of input.  Returns the matched text
and the remainder, or none when neither alternative matches at this
position. -/
def tryMatchAt (s : Str) : Option (Str × Str) :=
  match s with
  | [] => none
  | c :: _ =>
    if isTerminal c then none
    else
      let u := s.takeWhile (fun x => !isTerminal x)
      match s.dropWhile (fun x => !isTerminal x) with
      | [] => some (u, [])
      | b :: r1t =>
        let t := (b :: r1t).takeWhile isTerminal
        match (b :: r1t).dropWhile isTerminal with
        | [] => some (u ++ t, [])
        | d :: r2t =>
          if isWs d then
            some (u ++ t ++ (d :: r2t).takeWhile isWs, (d :: r2t).dropWhile isWs)
          else none

theorem length_dropWhile_le (p : Char → Bool) (l : Str) :
    (l.dropWhile p).length ≤ l.length := by
  induction l with
  | nil => simp
  | cons a l ih =>
    by_cases h : p a
    · simp [List.dropWhile_cons, h]
      omega
    · simp [List.dropWhile_cons, h]

theorem tryMatchAt_rem_lt (s m r : Str) (h : tryMatchAt s = some (m, r)) :
    r.length < s.length := by
  unfold tryMatchAt at h
  split at h
  · exact absurd h (by simp)
  rename_i c cs
  split at h
  · exact absurd h (by simp)
  rename_i hc
  split at h
  · rw [Option.some.injEq, Prod.mk.injEq] at h
    rw [← h.2]
    simp
  rename_i b r1t hr1
  split at h
  · rw [Option.some.injEq, Prod.mk.injEq] at h
    rw [← h.2]
    simp
  rename_i d r2t hr2
  split at h
  · rename_i hd
    rw [Option.some.injEq, Prod.mk.injEq] at h
    have hr : r = (d :: r2t).dropWhile isWs := h.2.symm
    have e1 : (d :: r2t).dropWhile isWs = r2t.dropWhile isWs := by
      rw [List.dropWhile_cons, if_pos hd]
    have l1 : r.length ≤ r2t.length := by
      rw [hr, e1]; exact length_dropWhile_le _ _
    have l2 : (d :: r2t).length ≤ (b :: r1t).length := by
      rw [← hr2]; exact length_dropWhile_le _ _
    have l3 : (b :: r1t).length ≤ cs.length := by
      rw [← hr1, List.dropWhile_cons, if_pos (by simp [hc])]
      exact length_dropWhile_le _ _
    simp only [List.length_cons] at l2 l3 ⊢
    omega
  · exact absurd h (by simp)

/-- Model of the global regex match loop of
content.match in indexDocument: repeatedly try the pattern at the
current position; on a match, emit it and continue after it; on a failure,
advance one character (that character belongs to no match and is skipped,
exactly as String.prototype.match with the g flag does). -/
def jsMatchGo : Str → List Str
  | [] => []
  | c :: rest =>
    match h : tryMatchAt (c :: rest) with
    | some (m, r) => m :: jsMatchGo r
    | none => jsMatchGo rest
termination_by s => s.length
decreasing_by
  · exact tryMatchAt_rem_lt _ _ _ h
  · simp

/-- The sentence list used by indexDocument:
content.match(regex) falls back to the whole content when there is no
match at all (the match call returns null). -/
def sentences (content : Str) : List Str :=
  match jsMatchGo content with
  | [] => [content]
  | s :: rest => s :: rest

/-- Target chunk size from indexDocument (TARGET_CHUNK_SIZE). -/
def TARGET_CHUNK_SIZE : Nat := 1000

/-- The chunk-assembly loop of indexDocument: greedily accumulate sentences
into a current buffer; when adding the next sentence would overflow the
target size and the buffer is non-empty, flush the trimmed buffer and start
over with that sentence; finally flush the trimmed buffer when its trimmed
form is non-empty. -/
def buildChunks : List Str → Str → List Str
  | [], cur => if 0 < (trim cur).length then [trim cur] else []
  | s :: rest, cur =>
    if TARGET_CHUNK_SIZE < cur.length + s.length ∧ 0 < cur.length then
      trim cur :: buildChunks rest s
    else
      buildChunks rest (cur ++ s)

/-- The chunking step of indexDocument: split into sentence units, then
assemble size-bounded chunks. -/
def chunkText (content : Str) : List Str :=
  buildChunks (sentences content) []

theorem jsMatchGo_nil : jsMatchGo [] = [] := by
  rw [jsMatchGo]

theorem jsMatchGo_cons (c : Char) (rest : Str) :
    jsMatchGo (c :: rest) =
      (match tryMatchAt (c :: rest) with
       | some (m, r) => m :: jsMatchGo r
       | none => jsMatchGo rest) := by
  rw [jsMatchGo]
  rcases h : tryMatchAt (c :: rest) with _ | ⟨m, r⟩ <;> simp

/-- A stored fragment (interface RagChunk of src/types.ts): an id, the
segment text, its embedding vector, and the name of the source document. -/
structure RagChunk where
  id : Str
  text : Str
  embedding : List ℚ
  sourceName : Str
deriving DecidableEq

/-- An indexed document record (interface RagDocument of src/types.ts). -/
structure RagDocument where
  id : Str
  name : Str
  timestamp : Nat
  chunkCount : Nat
deriving DecidableEq

/-- The mutable fields of the RagService class: the fragment store, the
document list and the one-shot bootstrap flag. -/
structure RagState where
  chunks : List RagChunk
  documents : List RagDocument
  initialized : Bool
deriving DecidableEq

/-- cosineSimilarity of ragService.ts: a raw dot product over the paired
coordinates (the code assumes both vectors have the provider's fixed
dimension and are pre-normalized). -/
def cosineSimilarity (q d : List ℚ) : ℚ :=
  ((q.zip d).map (fun p => p.1 * p.2)).sum

/-- The similarity threshold applied in search (score > 0.45). -/
def SIM_THRESHOLD : ℚ := 45 / 100

/-- The comparison relation realised by the sort comparator
(a, b) => b.score - a.score: a precedes b when a's score is at least
b's. -/
def scoreGe (a b : RagChunk × ℚ) : Prop := b.2 ≤ a.2

instance : DecidableRel scoreGe := fun a b => inferInstanceAs (Decidable (b.2 ≤ a.2))

instance : IsTotal (RagChunk × ℚ) scoreGe := ⟨fun a b => le_total b.2 a.2⟩

instance : IsTrans (RagChunk × ℚ) scoreGe := ⟨fun _ _ _ h1 h2 => le_trans h2 h1⟩

/-- Model of Array.prototype.sort with the comparator
(a, b) => b.score - a.score.  JavaScript's sort is required to be stable,
and a stable sort for this comparator is exactly insertion sort with the
"score at least" relation. -/
def sortByScoreDesc (l : List (RagChunk × ℚ)) : List (RagChunk × ℚ) :=
  List.insertionSort scoreGe l

/-- Result of one search call: the returned fragments, the service state
afterwards (search never mutates it), and how many embedding-provider calls
were made. -/
structure SearchOut where
  results : List RagChunk
  state : RagState
  embedCalls : Nat
deriving DecidableEq

/-- search of ragService.ts.  The embedding provider is modelled by the
queryEmbedding argument: none when the embedContent call throws or
returns no vector (both paths return an empty list in the source), some qv
when it yields the vector qv.  The body scores all stored chunks, sorts
descending (stably), slices the first topK, filters by the similarity
threshold, and projects the chunks; search is total — no exception reaches
the caller. -/
def search (st : RagState) (queryEmbedding : Option (List ℚ)) (topK : Nat) :
    SearchOut :=
  if st.chunks.length = 0 then ⟨[], st, 0⟩
  else
    match queryEmbedding with
    | none => ⟨[], st, 1⟩
    | some qv =>
      let scored := st.chunks.map (fun c => (c, cosineSimilarity qv c.embedding))
      let picked := ((sortByScoreDesc scored).take topK).filter
        (fun s => decide (SIM_THRESHOLD < s.2))
      ⟨picked.map (fun s => s.1), st, 1⟩

/-- The fragment-assembly part of indexDocument: each chunk text is sent to
the embedding provider once (the oracle embed); chunks whose call fails or
yields no vector are silently dropped; the rest become RagChunks carrying
fresh ids (the ids supply models crypto.randomUUID). -/
def embedChunks (embed : Str → Option (List ℚ)) (ids : Nat → Str) (name : Str)
    (texts : List Str) : List RagChunk :=
  texts.enum.filterMap
    (fun p => (embed p.2).map (fun v => ⟨ids p.1, p.2, v, name⟩))

/-- indexDocument of ragService.ts, returning the new state and the number
of embedding-provider calls.  docId models the crypto.randomUUID value
for the document, ids the per-chunk ids, now the Date.now timestamp.
If a document of the same name is already present the call returns at once
with no provider call; otherwise the content is chunked, every chunk is sent
to the provider, and the surviving fragments plus one document record are
appended. -/
def indexDocument (st : RagState) (embed : Str → Option (List ℚ))
    (docId : Str) (ids : Nat → Str) (now : Nat) (name content : Str) :
    RagState × Nat :=
  if st.documents.any (fun d => d.name == name) then (st, 0)
  else
    let texts := chunkText content
    let newChunks := embedChunks embed ids name texts
    (⟨st.chunks ++ newChunks,
      st.documents ++ [⟨docId, name, now, newChunks.length⟩],
      st.initialized⟩, texts.length)

/-- removeDocument of ragService.ts: look up the document by id; when found,
drop every document with that id and every chunk whose sourceName equals the
found document's name; when absent, do nothing. -/
def removeDocument (st : RagState) (id : Str) : RagState :=
  match st.documents.find? (fun d => d.id == id) with
  | none => st
  | some doc =>
    ⟨st.chunks.filter (fun c => !(c.sourceName == doc.name)),
     st.documents.filter (fun d => !(d.id == id)),
     st.initialized⟩

/-- clear of ragService.ts: empty both lists and reset the bootstrap
flag. -/
def clear (_st : RagState) : RagState := ⟨[], [], false⟩

/-- The name under which the built-in knowledge text is indexed. -/
def SYSTEM_DOC_NAME : Str := "SYSTEM_CORE_MEMORY".toList

/-- The built-in knowledge text (SYSTEM_KNOWLEDGE_BASE; the interpolated
current date is elided — no claim depends on its contents). -/
def SYSTEM_KNOWLEDGE_BASE : Str :=
  "## CAPTBOT CORE KNOWLEDGE ...".toList

/-- init of ragService.ts.  Returns the new state and whether the indexer
(indexDocument) was invoked.  indexThrows models the caught failure of the
awaited indexDocument call (the try/catch around it): when it throws, the
state is unchanged but — crucially — the initialized flag is still set, since
the assignment sits after the try/catch, outside it. -/
def init (st : RagState) (embed : Str → Option (List ℚ)) (docId : Str)
    (ids : Nat → Str) (now : Nat) (indexThrows : Bool) : RagState × Bool :=
  if st.initialized then (st, false)
  else
    let present := st.documents.any (fun d => d.name == SYSTEM_DOC_NAME)
    let st' :=
      if present then st
      else if indexThrows then st
      else (indexDocument st embed docId ids now SYSTEM_DOC_NAME
              SYSTEM_KNOWLEDGE_BASE).1
    (⟨st'.chunks, st'.documents, true⟩, !present)

/-- The durable snapshot persisted by saveToStorage under the fixed
localStorage key: the chunk list and the document list. -/
structure Snapshot where
  chunks : List RagChunk
  documents : List RagDocument
deriving DecidableEq

/-- Length of the JSON string serialization of a string value, counting the
two surrounding quotes and two characters for each escaped quote or
backslash. -/
def jsonStringLength (s : Str) : Nat :=
  2 + (s.map (fun c => if c = '"' ∨ c = '\\' then 2 else 1)).sum

/-- Length of a JSON array given the lengths of the serialized elements:
two brackets, the elements, and a comma between neighbours. -/
def jsonArrayLength (lens : List Nat) : Nat :=
  2 + lens.sum + (lens.length - 1)

/-- Length of the JSON serialization of one fragment:
an object with keys id, text, embedding, sourceName. -/
def chunkJsonLength (c : RagChunk) : Nat :=
  42 + jsonStringLength c.id + jsonStringLength c.text +
    jsonArrayLength (c.embedding.map (fun q => (toString q).length)) +
    jsonStringLength c.sourceName

/-- Length of the JSON serialization of one document record:
an object with keys id, name, timestamp, chunkCount. -/
def documentJsonLength (d : RagDocument) : Nat :=
  41 + jsonStringLength d.id + jsonStringLength d.name +
    (toString d.timestamp).length + (toString d.chunkCount).length

/-- Model of JSON.stringify({chunks, documents}).length as measured by
saveToStorage before writing. -/
def serializedLength (st : RagState) : Nat :=
  24 + jsonArrayLength (st.chunks.map chunkJsonLength) +
    jsonArrayLength (st.documents.map documentJsonLength)

/-- The size ceiling of saveToStorage (LocalStorage safety check). -/
def SIZE_CEILING : Nat := 4500000

/-- saveToStorage of ragService.ts, acting on the durable slot: when the
serialized index is below the ceiling the slot is overwritten with the
current snapshot, otherwise the write is skipped (a warning is logged) and
the slot keeps its previous contents.  The in-memory state is read, never
written. -/
def saveToStorage (slot : Option Snapshot) (st : RagState) : Option Snapshot :=
  if serializedLength st < SIZE_CEILING then some ⟨st.chunks, st.documents⟩
  else slot

/-- loadFromStorage as run by the constructor of a fresh process: a present
snapshot hydrates the two lists, a missing (or unparseable) slot leaves the
state empty; the bootstrap flag always starts false. -/
def loadFromStorage (slot : Option Snapshot) : RagState :=
  match slot with
  | some snap => ⟨snap.chunks, snap.documents, false⟩
  | none => ⟨[], [], false⟩

/-- Claim C7: when the embedding-provider call for the query fails or
returns no vector, search returns an empty list — totally, so no exception
reaches the caller — and the stored index is unchanged. -/
theorem search_embed_failure_empty (st : RagState) (topK : Nat) :
    (search st none topK).results = [] ∧ (search st none topK).state = st := by
  unfold search
  by_cases h : st.chunks.length = 0 <;> simp [h]

/-- Claim C8: against an index holding zero fragments, search returns an
empty list and performs no embedding-provider call, whatever the query
embedding would have been and whatever topK is. -/
theorem search_empty_index (st : RagState) (e : Option (List ℚ)) (topK : Nat)
    (h : st.chunks = []) :
    (search st e topK).results = [] ∧ (search st e topK).embedCalls = 0 := by
  simp [search, h]

theorem search_empty_index_witness :
    (⟨[], [], false⟩ : RagState).chunks = [] ∧
      ((search ⟨[], [], false⟩ (some [1]) 5).results = [] ∧
        (search ⟨[], [], false⟩ (some [1]) 5).embedCalls = 0) :=
  ⟨rfl, search_empty_index ⟨[], [], false⟩ (some [1]) 5 rfl⟩

/-- Claim C10: init sets the initialized flag unconditionally (even when the
system-document indexing attempt throws and is caught), so any init call
after a completed one is a complete no-op that never invokes the indexer;
clear resets the flag, after which init invokes the indexer again. -/
theorem init_once_per_lifetime (st : RagState)
    (e e' : Str → Option (List ℚ)) (d d' : Str) (ids ids' : Nat → Str)
    (n n' : Nat) (t t' : Bool) :
    (init st e d ids n t).1.initialized = true ∧
    init (init st e d ids n t).1 e' d' ids' n' t'
      = ((init st e d ids n t).1, false) ∧
    (clear st).initialized = false ∧
    (init (clear st) e d ids n t).2 = true := by
  have key : ∀ s : RagState, s.initialized = true →
      init s e' d' ids' n' t' = (s, false) := by
    intro s hs
    simp [init, hs]
  have hflag : (init st e d ids n t).1.initialized = true := by
    unfold init
    by_cases h : st.initialized <;> simp [h]
  exact ⟨hflag, key _ hflag, rfl, by simp [init, clear]⟩

/-- Claim C3: indexing is idempotent by name — a second index call with the
same name is a no-op (it returns the state unchanged and performs no
embedding-provider call), and a first call on a state without that name
leaves exactly one document bearing it. -/
theorem indexDocument_idempotent (st : RagState)
    (e e' : Str → Option (List ℚ)) (d d' : Str) (ids ids' : Nat → Str)
    (n n' : Nat) (name content : Str) :
    indexDocument (indexDocument st e d ids n name content).1 e' d' ids' n'
        name content
      = ((indexDocument st e d ids n name content).1, 0) ∧
    (st.documents.countP (fun doc => doc.name == name) = 0 →
      (indexDocument st e d ids n name content).1.documents.countP
        (fun doc => doc.name == name) = 1) := by
  have key : ∀ s : RagState, (s.documents.any (fun doc => doc.name == name)) = true →
      indexDocument s e' d' ids' n' name content = (s, 0) := by
    intro s hs
    simp [indexDocument, hs]
  by_cases hany : st.documents.any (fun doc => doc.name == name)
  · have h1 : indexDocument st e d ids n name content = (st, 0) := by
      simp [indexDocument, hany]
    rw [h1]
    refine ⟨key st hany, ?_⟩
    intro h0
    exfalso
    rcases List.any_eq_true.mp hany with ⟨doc, hmem, hdoc⟩
    exact (List.countP_eq_zero.mp h0 doc hmem) hdoc
  · have h1 : indexDocument st e d ids n name content
        = (⟨st.chunks ++ embedChunks e ids name (chunkText content),
            st.documents ++ [⟨d, name, n,
              (embedChunks e ids name (chunkText content)).length⟩],
            st.initialized⟩, (chunkText content).length) := by
      simp [indexDocument, hany]
    rw [h1]
    constructor
    · apply key
      simp [List.any_append]
    · intro h0
      simp only [List.countP_append, h0]
      simp [List.countP_cons]

theorem indexDocument_idempotent_witness :
    ((⟨[], [], false⟩ : RagState)).documents.countP
        (fun doc => doc.name == ("D".toList : Str)) = 0 ∧
      (indexDocument ⟨[], [], false⟩ (fun _ => some [1]) [] (fun _ => []) 0
          ("D".toList) ("hi.".toList)).1.documents.countP
        (fun doc => doc.name == ("D".toList : Str)) = 1 :=
  ⟨rfl, (indexDocument_idempotent ⟨[], [], false⟩ (fun _ => some [1])
      (fun _ => some [1]) [] [] (fun _ => []) (fun _ => []) 0 0
      ("D".toList) ("hi.".toList)).2 rfl⟩

/-- Claim C6: when the serialized index reaches the size ceiling, the
durable write is skipped — the slot keeps the previous snapshot (the
in-memory state is not an output of save at all, hence untouched), and a
fresh-process load then yields the previous snapshot's contents, not the
unsaved additions. -/
theorem save_skips_when_oversized (slot : Option Snapshot) (st : RagState)
    (h : SIZE_CEILING ≤ serializedLength st) :
    saveToStorage slot st = slot ∧
    loadFromStorage (saveToStorage slot st) = loadFromStorage slot := by
  have hn : ¬ serializedLength st < SIZE_CEILING := not_lt.mpr h
  refine ⟨?_, ?_⟩ <;> simp [saveToStorage, hn]

/-- A state whose single fragment holds an n-character text. -/
def bigStateOf (n : Nat) : RagState :=
  ⟨[⟨[], List.replicate n 'x', [], []⟩], [], false⟩

theorem bigStateOf_size (n : Nat) : n ≤ serializedLength (bigStateOf n) := by
  have hx : (if ('x' = '"' ∨ 'x' = '\\') then 2 else 1) = (1 : Nat) := by decide
  have h1 : (List.replicate n 'x').map
      (fun c => if c = '"' ∨ c = '\\' then 2 else 1) = List.replicate n 1 := by
    rw [List.map_replicate, hx]
  have h2 : (List.replicate n (1 : Nat)).sum = n := by
    rw [List.sum_replicate, smul_eq_mul, mul_one]
  unfold serializedLength bigStateOf chunkJsonLength jsonStringLength
    jsonArrayLength
  simp only [List.map_cons, List.map_nil, List.sum_cons, List.sum_nil,
    List.length_cons, List.length_nil, h1, h2]
  omega

/-- A state whose single fragment holds a 4.5-million-character text, large
enough to trip the persistence size ceiling. -/
def oversizedState : RagState := bigStateOf 4500000

theorem oversizedState_large : SIZE_CEILING ≤ serializedLength oversizedState :=
  bigStateOf_size 4500000

theorem length_filter_take_of_sorted (t : ℚ) :
    ∀ (l : List (RagChunk × ℚ)), l.Pairwise scoreGe → ∀ k : Nat,
      ((l.take k).filter (fun x => decide (t < x.2))).length
        = min k (l.countP (fun x => decide (t < x.2))) := by
  intro l
  induction l with
  | nil => intro _ k; simp
  | cons x xs ih =>
    intro hp k
    rw [List.pairwise_cons] at hp
    match k with
    | 0 => simp
    | Nat.succ k =>
      rw [List.take_succ_cons, List.filter_cons, List.countP_cons]
      by_cases hx : (decide (t < x.2)) = true
      · rw [if_pos hx, hx, List.length_cons, ih hp.2 k]
        simp only [if_true]
        omega
      · rw [if_neg hx]
        have hall : ∀ y ∈ xs, ¬ ((decide (t < y.2)) = true) := by
          intro y hy
          simp only [decide_eq_true_eq] at hx ⊢
          intro hty
          exact hx (lt_of_lt_of_le hty (hp.1 y hy))
        have h1 : (xs.take k).filter (fun x => decide (t < x.2)) = [] := by
          apply List.filter_eq_nil_iff.mpr
          intro y hy
          exact hall y (List.take_subset k xs hy)
        have h2 : xs.countP (fun x => decide (t < x.2)) = 0 :=
          List.countP_eq_zero.mpr hall
        rw [h1, h2]
        simp only [Bool.not_eq_true] at hx
        rw [hx]
        simp

theorem filter_eq_orderedInsert (s : ℚ) (x : RagChunk × ℚ)
    (l : List (RagChunk × ℚ)) :
    (List.orderedInsert scoreGe x l).filter (fun y => decide (y.2 = s))
      = if x.2 = s then x :: l.filter (fun y => decide (y.2 = s))
        else l.filter (fun y => decide (y.2 = s)) := by
  induction l with
  | nil =>
    by_cases hx : x.2 = s <;> simp [List.orderedInsert, hx]
  | cons a l ih =>
    rw [List.orderedInsert]
    by_cases hcmp : scoreGe x a
    · rw [if_pos hcmp]
      by_cases hx : x.2 = s <;> by_cases ha : a.2 = s <;>
        simp [List.filter_cons, hx, ha]
    · rw [if_neg hcmp, List.filter_cons, ih]
      have hagt : x.2 < a.2 := not_le.mp hcmp
      by_cases hx : x.2 = s
      · have ha : ¬ (a.2 = s) := by
          intro he
          exact absurd (hx ▸ he : a.2 = x.2) (ne_of_gt hagt)
        simp [hx, ha]
      · by_cases ha : a.2 = s <;> simp [List.filter_cons, hx, ha]

theorem filter_eq_sortByScoreDesc (s : ℚ) (l : List (RagChunk × ℚ)) :
    (sortByScoreDesc l).filter (fun y => decide (y.2 = s))
      = l.filter (fun y => decide (y.2 = s)) := by
  induction l with
  | nil => rfl
  | cons x xs ih =>
    show ((List.insertionSort scoreGe xs).orderedInsert scoreGe x).filter _ = _
    rw [filter_eq_orderedInsert]
    unfold sortByScoreDesc at ih
    by_cases hx : x.2 = s <;> simp [List.filter_cons, hx, ih]

theorem search_results_some (st : RagState) (qv : List ℚ) (topK : Nat) :
    (search st (some qv) topK).results
      = if st.chunks.length = 0 then ([] : List RagChunk)
        else (((sortByScoreDesc (st.chunks.map
            (fun c => (c, cosineSimilarity qv c.embedding)))).take topK).filter
          (fun x => decide (SIM_THRESHOLD < x.2))).map (fun x => x.1) := by
  unfold search
  by_cases h : st.chunks.length = 0 <;> simp [h]

theorem mem_sort_scored (st : RagState) (qv : List ℚ)
    (x : RagChunk × ℚ)
    (hx : x ∈ sortByScoreDesc (st.chunks.map
      (fun c => (c, cosineSimilarity qv c.embedding)))) :
    x.2 = cosineSimilarity qv x.1.embedding := by
  have hmem : x ∈ st.chunks.map (fun c => (c, cosineSimilarity qv c.embedding)) :=
    (List.perm_insertionSort scoreGe _).mem_iff.mp hx
  rcases List.mem_map.mp hmem with ⟨c, _, rfl⟩
  rfl

/-- Claim C1: search never returns a fragment scoring at or below the 0.45
threshold, and — because the list is sorted descending before the slice —
the result length is exactly min(topK, number of stored fragments scoring
strictly above the threshold); in particular nothing below threshold is
kept and nothing above it is backfilled from beyond the top topK. -/
theorem search_threshold_and_length (st : RagState) (qv : List ℚ)
    (topK : Nat) (ht : 1 ≤ topK) :
    (∀ c ∈ (search st (some qv) topK).results,
      SIM_THRESHOLD < cosineSimilarity qv c.embedding) ∧
    (search st (some qv) topK).results.length
      = min topK (st.chunks.countP
          (fun c => decide (SIM_THRESHOLD < cosineSimilarity qv c.embedding))) := by
  rw [search_results_some]
  by_cases h0 : st.chunks.length = 0
  · rw [if_pos h0]
    have hnil : st.chunks = [] := List.length_eq_zero.mp h0
    simp [hnil]
  · rw [if_neg h0]
    set scored := st.chunks.map (fun c => (c, cosineSimilarity qv c.embedding))
      with hscored
    set L := sortByScoreDesc scored with hL
    have hsorted : L.Pairwise scoreGe :=
      List.sorted_insertionSort scoreGe scored
    constructor
    · intro c hc
      rcases List.mem_map.mp hc with ⟨x, hxmem, rfl⟩
      have hxL : x ∈ L :=
        List.take_subset topK L (List.mem_of_mem_filter hxmem)
      have hsc : (decide (SIM_THRESHOLD < x.2)) = true :=
        (List.mem_filter.mp hxmem).2
      rw [← mem_sort_scored st qv x hxL]
      exact decide_eq_true_eq.mp hsc
    · rw [List.length_map]
      rw [length_filter_take_of_sorted SIM_THRESHOLD L hsorted topK]
      congr 1
      have hperm : List.Perm L scored := List.perm_insertionSort scoreGe scored
      rw [hperm.countP_eq, hscored, List.countP_map]
      rfl

/-- The 3-chunk, score-spread state used to witness the search claims. -/
def searchWitnessState : RagState :=
  ⟨[⟨"c1".toList, "t1".toList, [1], "A".toList⟩,
    ⟨"c2".toList, "t2".toList, [2/5], "A".toList⟩,
    ⟨"c3".toList, "t3".toList, [9/10], "A".toList⟩],
   [⟨"1".toList, "A".toList, 0, 3⟩], false⟩

theorem search_threshold_and_length_witness :
    1 ≤ 2 ∧
      ((∀ c ∈ (search searchWitnessState (some [1]) 2).results,
          SIM_THRESHOLD < cosineSimilarity [1] c.embedding) ∧
        (search searchWitnessState (some [1]) 2).results.length
          = min 2 (searchWitnessState.chunks.countP
              (fun c => decide (SIM_THRESHOLD < cosineSimilarity [1] c.embedding)))) :=
  ⟨by omega, search_threshold_and_length searchWitnessState [1] 2 (by omega)⟩

/-- Claim C4: search results are sorted by non-increasing dot-product score;
fragments with equal scores keep their relative storage order (the sort is
stable, and slicing plus thresholding only ever keep a prefix of each
equal-score class); and the result is a function of the stored chunk list
and the query embedding alone. -/
theorem search_sorted_stable_deterministic (st : RagState) (qv : List ℚ)
    (topK : Nat) :
    (search st (some qv) topK).results.Pairwise
      (fun a b => cosineSimilarity qv b.embedding ≤ cosineSimilarity qv a.embedding) ∧
    (∀ s : ℚ,
      (search st (some qv) topK).results.filter
          (fun c => decide (cosineSimilarity qv c.embedding = s))
        <+: st.chunks.filter
          (fun c => decide (cosineSimilarity qv c.embedding = s))) ∧
    (∀ st' : RagState, st'.chunks = st.chunks →
      (search st' (some qv) topK).results = (search st (some qv) topK).results) := by
  refine ⟨?_, ?_, ?_⟩
  · rw [search_results_some]
    by_cases h0 : st.chunks.length = 0
    · rw [if_pos h0]; simp
    · rw [if_neg h0]
      set scored := st.chunks.map (fun c => (c, cosineSimilarity qv c.embedding))
        with hscored
      set L := sortByScoreDesc scored with hL
      have hsorted : L.Pairwise scoreGe :=
        List.sorted_insertionSort scoreGe scored
      have hX : ((L.take topK).filter
          (fun x => decide (SIM_THRESHOLD < x.2))).Pairwise scoreGe :=
        List.Pairwise.sublist
          ((List.filter_sublist _).trans (List.take_sublist topK L)) hsorted
      rw [List.pairwise_map]
      refine hX.imp_of_mem ?_
      intro a b ha hb hab
      have haL : a ∈ L := List.take_subset topK L (List.mem_of_mem_filter ha)
      have hbL : b ∈ L := List.take_subset topK L (List.mem_of_mem_filter hb)
      rw [← mem_sort_scored st qv a haL, ← mem_sort_scored st qv b hbL]
      exact hab
  · intro s
    rw [search_results_some]
    by_cases h0 : st.chunks.length = 0
    · rw [if_pos h0]
      simp only [List.filter_nil]
      exact List.nil_prefix
    · rw [if_neg h0]
      set scored := st.chunks.map (fun c => (c, cosineSimilarity qv c.embedding))
        with hscored
      set L := sortByScoreDesc scored with hL
      set X := (L.take topK).filter (fun x => decide (SIM_THRESHOLD < x.2))
        with hXdef
      have hmemX : ∀ x ∈ X, x.2 = cosineSimilarity qv x.1.embedding := by
        intro x hx
        exact mem_sort_scored st qv x
          (List.take_subset topK L (List.mem_of_mem_filter hx))
      rw [List.filter_map]
      have hcong : X.filter ((fun c => decide (cosineSimilarity qv c.embedding = s))
            ∘ (fun x : RagChunk × ℚ => x.1))
          = X.filter (fun x => decide (x.2 = s)) := by
        apply List.filter_congr
        intro x hx
        simp only [Function.comp_apply]
        rw [hmemX x hx]
      rw [hcong]
      by_cases hst : SIM_THRESHOLD < s
      · have hXfilter : X.filter (fun x => decide (x.2 = s))
            = (L.take topK).filter (fun x => decide (x.2 = s)) := by
          rw [hXdef, List.filter_filter]
          apply List.filter_congr
          intro x _
          by_cases he : x.2 = s
          · simp [he, hst]
          · simp [he]
        rw [hXfilter]
        have hpre : (L.take topK).filter (fun x => decide (x.2 = s))
            <+: L.filter (fun x => decide (x.2 = s)) :=
          (List.take_prefix topK L).filter _
        have hsort : L.filter (fun x => decide (x.2 = s))
            = scored.filter (fun x => decide (x.2 = s)) :=
          filter_eq_sortByScoreDesc s scored
        have hback : (scored.filter (fun x => decide (x.2 = s))).map
              (fun x : RagChunk × ℚ => x.1)
            = st.chunks.filter (fun c => decide (cosineSimilarity qv c.embedding = s)) := by
          rw [hscored, List.filter_map, List.map_map]
          rw [show ((fun x : RagChunk × ℚ => x.1) ∘
              (fun c : RagChunk => (c, cosineSimilarity qv c.embedding)))
              = fun c : RagChunk => c from rfl, List.map_id']
          rfl
        calc ((L.take topK).filter (fun x => decide (x.2 = s))).map
              (fun x : RagChunk × ℚ => x.1)
            <+: (L.filter (fun x => decide (x.2 = s))).map
              (fun x : RagChunk × ℚ => x.1) := hpre.map _
          _ = st.chunks.filter
              (fun c => decide (cosineSimilarity qv c.embedding = s)) := by
              rw [hsort, hback]
      · have hnil : X.filter (fun x => decide (x.2 = s)) = [] := by
          apply List.filter_eq_nil_iff.mpr
          intro x hx
          rw [hXdef, List.mem_filter] at hx
          have hsc := hx.2
          simp only [decide_eq_true_eq] at hsc ⊢
          intro he
          exact hst (he ▸ hsc)
        rw [hnil]
        exact List.nil_prefix
  · intro st' hch
    by_cases h0 : st.chunks.length = 0 <;> simp [search, hch, h0]

theorem search_sorted_stable_deterministic_witness :
    (⟨searchWitnessState.chunks, [], true⟩ : RagState).chunks
        = searchWitnessState.chunks ∧
      (search ⟨searchWitnessState.chunks, [], true⟩ (some [1]) 2).results
        = (search searchWitnessState (some [1]) 2).results :=
  ⟨rfl, (search_sorted_stable_deterministic searchWitnessState [1] 2).2.2
    ⟨searchWitnessState.chunks, [], true⟩ rfl⟩

theorem length_trim_le (s : Str) : (trim s).length ≤ s.length := by
  unfold trim
  rw [List.length_reverse]
  have h1 := length_dropWhile_le isWs ((s.dropWhile isWs).reverse)
  have h2 := length_dropWhile_le isWs s
  rw [List.length_reverse] at h1
  omega

theorem buildChunks_size (S : List Str) :
    ∀ (sents : List Str) (cur : Str),
      (∀ s ∈ sents, s ∈ S) → (TARGET_CHUNK_SIZE < cur.length → cur ∈ S) →
      ∀ c ∈ buildChunks sents cur,
        c.length ≤ TARGET_CHUNK_SIZE ∨
          ∃ s ∈ S, c = trim s ∧ TARGET_CHUNK_SIZE < s.length := by
  have base : ∀ cur : Str, (TARGET_CHUNK_SIZE < cur.length → cur ∈ S) →
      (trim cur).length ≤ TARGET_CHUNK_SIZE ∨
        ∃ s ∈ S, trim cur = trim s ∧ TARGET_CHUNK_SIZE < s.length := by
    intro cur hcur
    by_cases hlen : (trim cur).length ≤ TARGET_CHUNK_SIZE
    · exact Or.inl hlen
    · right
      have hbig : TARGET_CHUNK_SIZE < cur.length :=
        lt_of_lt_of_le (not_le.mp hlen) (length_trim_le cur)
      exact ⟨cur, hcur hbig, rfl, hbig⟩
  intro sents
  induction sents with
  | nil =>
    intro cur _ hcur c hc
    simp only [buildChunks] at hc
    by_cases h : 0 < (trim cur).length
    · rw [if_pos h] at hc
      rw [List.mem_singleton] at hc
      subst hc
      exact base cur hcur
    · rw [if_neg h] at hc
      exact absurd hc (List.not_mem_nil c)
  | cons s rest ih =>
    intro cur hs hcur c hc
    simp only [buildChunks] at hc
    by_cases hcond : TARGET_CHUNK_SIZE < cur.length + s.length ∧ 0 < cur.length
    · rw [if_pos hcond] at hc
      rcases List.mem_cons.mp hc with rfl | hc'
      · exact base cur hcur
      · exact ih s (fun x hx => hs x (List.mem_cons_of_mem _ hx))
          (fun _ => hs s (List.mem_cons_self _ _)) c hc'
    · rw [if_neg hcond] at hc
      refine ih (cur ++ s) (fun x hx => hs x (List.mem_cons_of_mem _ hx)) ?_ c hc
      intro hlen
      rw [List.length_append] at hlen
      by_cases hc0 : cur.length = 0
      · rw [List.length_eq_zero.mp hc0, List.nil_append]
        exact hs s (List.mem_cons_self _ _)
      · exact absurd ⟨hlen, Nat.pos_of_ne_zero hc0⟩ hcond

/-- Claim C9: every segment produced by the chunking step fits into the
1000-character target, except when it is (the trim of) a single
sentence-unit that alone exceeds the target — such a sentence is emitted
unsplit. -/
theorem chunk_size_bounded (content : Str) (c : Str)
    (hc : c ∈ chunkText content) :
    c.length ≤ TARGET_CHUNK_SIZE ∨
      ∃ s ∈ sentences content, c = trim s ∧ TARGET_CHUNK_SIZE < s.length :=
  buildChunks_size (sentences content) (sentences content) []
    (fun _ hs => hs) (fun h => absurd h (by simp [TARGET_CHUNK_SIZE])) c hc

theorem chunkText_hi : chunkText ('h' :: 'i' :: '.' :: [])
    = [('h' :: 'i' :: '.' :: [])] := by
  have h1 : tryMatchAt ('h' :: 'i' :: '.' :: [])
      = some (('h' :: 'i' :: '.' :: []), []) := by decide
  simp only [chunkText, sentences, jsMatchGo_cons, jsMatchGo_nil, h1]
  decide

theorem chunk_size_bounded_witness :
    ('h' :: 'i' :: '.' :: []) ∈ chunkText ('h' :: 'i' :: '.' :: []) ∧
      ((('h' :: 'i' :: '.' :: []) : Str).length ≤ TARGET_CHUNK_SIZE ∨
        ∃ s ∈ sentences ('h' :: 'i' :: '.' :: []),
          ('h' :: 'i' :: '.' :: []) = trim s ∧ TARGET_CHUNK_SIZE < s.length) :=
  ⟨by rw [chunkText_hi]; exact List.mem_singleton.mpr rfl,
    chunk_size_bounded ('h' :: 'i' :: '.' :: []) ('h' :: 'i' :: '.' :: [])
      (by rw [chunkText_hi]; exact List.mem_singleton.mpr rfl)⟩

/-- Claim C2 fails on the code: on the input "a.b" the global regex match
skips the unmatched span "a." (a terminal not followed by whitespace or end
of input), so the only sentence-unit is "b"; the produced segments are
["b"], and rejoining them loses the non-whitespace characters "a" and ".".
This contradicts the spec's chunk-coverage property and the code's own
stated intent of sentence-aware chunking. -/
theorem chunkText_drops_text :
    sentences ('a' :: '.' :: 'b' :: []) = [['b']] ∧
    chunkText ('a' :: '.' :: 'b' :: []) = [['b']] ∧
    ¬ ((chunkText ('a' :: '.' :: 'b' :: [])).flatten.filter (fun c => !isWs c)
        = ('a' :: '.' :: 'b' :: []).filter (fun c => !isWs c)) := by
  have h1 : tryMatchAt ('a' :: '.' :: 'b' :: []) = none := by decide
  have h2 : tryMatchAt ('.' :: 'b' :: []) = none := by decide
  have h3 : tryMatchAt ('b' :: []) = some (['b'], []) := by decide
  refine ⟨?_, ?_, ?_⟩ <;>
    simp only [sentences, chunkText, jsMatchGo_cons, jsMatchGo_nil, h1, h2, h3] <;>
    decide

theorem find_doc_of_nodup (l : List RagDocument) (doc : RagDocument) (id : Str)
    (hmem : doc ∈ l) (hid : doc.id = id)
    (hnodup : (l.map (fun d => d.id)).Nodup) :
    l.find? (fun d => d.id == id) = some doc := by
  induction l with
  | nil => simp at hmem
  | cons a tl ih =>
    rw [List.map_cons, List.nodup_cons] at hnodup
    rcases List.mem_cons.mp hmem with rfl | hmem'
    · exact List.find?_cons_of_pos _ (by simp [hid])
    · have ha : (a.id == id) = false := by
        rw [beq_eq_false_iff_ne]
        intro he
        exact hnodup.1 (List.mem_map.mpr ⟨doc, hmem', hid.trans he.symm⟩)
      rw [List.find?_cons_of_neg _ (by simp [ha]), ih hmem' hnodup.2]

theorem filter_ne_id_eq_erase (l : List RagDocument) (doc : RagDocument)
    (id : Str) (hmem : doc ∈ l) (hid : doc.id = id)
    (hnodup : (l.map (fun d => d.id)).Nodup) :
    l.filter (fun d => !(d.id == id)) = l.erase doc := by
  induction l with
  | nil => simp at hmem
  | cons a tl ih =>
    rw [List.map_cons, List.nodup_cons] at hnodup
    rcases List.mem_cons.mp hmem with rfl | hmem'
    · rw [List.erase_cons_head, List.filter_cons, if_neg (by simp [hid])]
      apply List.filter_eq_self.mpr
      intro b hb
      simp only [Bool.not_eq_true', beq_eq_false_iff_ne]
      intro he
      exact hnodup.1 (List.mem_map.mpr ⟨b, hb, he.trans hid.symm⟩)
    · have hne : a ≠ doc := by
        intro he
        exact hnodup.1 (List.mem_map.mpr ⟨doc, hmem', by rw [he]⟩)
      have ha : (a.id == id) = false := by
        rw [beq_eq_false_iff_ne]
        intro he
        exact hnodup.1 (List.mem_map.mpr ⟨doc, hmem', hid.trans he.symm⟩)
      rw [List.filter_cons, if_pos (by simp [ha]),
        List.erase_cons_tail (not_beq_of_ne hne), ih hmem' hnodup.2]

/-- Claim C5: when a document with the given id exists (ids being unique),
removeDocument removes exactly that document and exactly the fragments
whose sourceName equals that document's name, touching nothing else; when
no document has the id, the whole state is unchanged. -/
theorem removeDocument_frame (st : RagState) (id : Str)
    (hnodup : (st.documents.map (fun d => d.id)).Nodup) :
    ((∀ d ∈ st.documents, d.id ≠ id) → removeDocument st id = st) ∧
    (∀ doc ∈ st.documents, doc.id = id →
      (removeDocument st id).documents = st.documents.erase doc ∧
      (removeDocument st id).chunks =
        st.chunks.filter (fun c => !(c.sourceName == doc.name)) ∧
      (removeDocument st id).initialized = st.initialized) := by
  constructor
  · intro hnone
    have hfind : st.documents.find? (fun d => d.id == id) = none := by
      apply List.find?_eq_none.mpr
      intro d hd
      simp only [Bool.not_eq_true, beq_eq_false_iff_ne]
      exact hnone d hd
    unfold removeDocument
    rw [hfind]
  · intro doc hmem hid
    have hfind : st.documents.find? (fun d => d.id == id) = some doc :=
      find_doc_of_nodup st.documents doc id hmem hid hnodup
    unfold removeDocument
    rw [hfind]
    exact ⟨(filter_ne_id_eq_erase st.documents doc id hmem hid hnodup).symm ▸ rfl,
      rfl, rfl⟩

/-- Concrete two-document state used to witness the removal claim. -/
def removeWitnessState : RagState :=
  ⟨[⟨"c1".toList, "ta".toList, [], "A".toList⟩,
    ⟨"c2".toList, "tb".toList, [], "B".toList⟩],
   [⟨"1".toList, "A".toList, 0, 1⟩, ⟨"2".toList, "B".toList, 0, 1⟩],
   false⟩

theorem removeDocument_frame_witness :
    (removeWitnessState.documents.map (fun d => d.id)).Nodup ∧
      ((removeDocument removeWitnessState ("1".toList)).documents
          = removeWitnessState.documents.erase ⟨"1".toList, "A".toList, 0, 1⟩ ∧
        (removeDocument removeWitnessState ("1".toList)).chunks
          = removeWitnessState.chunks.filter
              (fun c => !(c.sourceName == ("A".toList : Str))) ∧
        (removeDocument removeWitnessState ("1".toList)).initialized
          = removeWitnessState.initialized) :=
  ⟨by decide,
    (removeDocument_frame removeWitnessState ("1".toList) (by decide)).2
      ⟨"1".toList, "A".toList, 0, 1⟩ (by decide) rfl⟩

theorem save_skips_when_oversized_witness :
    SIZE_CEILING ≤ serializedLength oversizedState ∧
      (saveToStorage (some ⟨[], []⟩) oversizedState = some ⟨[], []⟩ ∧
        loadFromStorage (saveToStorage (some ⟨[], []⟩) oversizedState)
          = loadFromStorage (some ⟨[], []⟩)) :=
  ⟨oversizedState_large,
    save_skips_when_oversized (some ⟨[], []⟩) oversizedState oversizedState_large⟩

end CaptBot
